import Mathlib

/-!
Verification of the `env` and `metacmd` packages of the usql session layer.

The Go source is shallowly embedded: Go strings become Lean `String`
(matched through their character list, which is faithful for the ASCII
inputs these functions handle), Go `(value, error)` returns become
`Except`-style results, and a Go runtime abort from an out-of-range index
is modelled by an explicit `crash` result.  Effectful context (the os
environment, file system and URL normalisation) is passed in explicitly
as a state record.
-/

set_option autoImplicit false

namespace Usql

/-! ## Go string primitives -/

/-- Go `strings.Split(s, sep)` on the character level: split a character
list on a separator character, keeping empty segments.  `splitChars sep []`
is `[[]]`, matching `strings.Split("", sep) = [""]`. -/
def splitChars (sep : Char) : List Char → List (List Char)
  | [] => [[]]
  | c :: cs =>
    let r := splitChars sep cs
    if c = sep then
      [] :: r
    else
      match r with
      | [] => [[c]]
      | g :: gs => (c :: g) :: gs

/-- Go `strings.Split(s, string sep)` for a one-character separator. -/
def goSplit (s : String) (sep : Char) : List String :=
  (splitChars sep s.data).map (fun l => String.mk l)

/-- The ASCII whitespace recognised by Go `strings.TrimSpace`. -/
def isSpaceChar (c : Char) : Bool :=
  c = ' ' ∨ c = '\t' ∨ c = '\n' ∨ c = '\x0b' ∨ c = '\x0c' ∨ c = '\r'

/-- Go `strings.TrimSpace` (ASCII fragment): drop leading and trailing
whitespace characters. -/
def trimSpace (s : String) : String :=
  String.mk (((s.data.dropWhile isSpaceChar).reverse.dropWhile isSpaceChar).reverse)

/-- The effect of `commentRE.ReplaceAllString(line, "")` on a single
scanner line, where `commentRE = regexp.MustCompile ("#.*")`: everything
from the first `#` on is removed. -/
def stripComment (s : String) : String :=
  String.mk (s.data.takeWhile (fun c => c ≠ '#'))

namespace env

/-! ## Errors and result shapes of the env package -/

/-- The error values of the `text` package reached from the embedded code. -/
inductive UErr where
  | unterminatedString
  deriving DecidableEq, Repr

/-- A Go `(value, error)` return, with an explicit `crash` value modelling
a runtime abort (an out-of-range index). -/
inductive GoRes (ε α : Type) where
  | ok (a : α)
  | err (e : ε)
  | crash
  deriving DecidableEq, Repr

instance exceptDecEq {ε α : Type} [DecidableEq ε] [DecidableEq α] :
    DecidableEq (Except ε α) := fun x y =>
  match x, y with
  | .ok a, .ok b => decidable_of_iff (a = b) (by simp)
  | .error a, .error b => decidable_of_iff (a = b) (by simp)
  | .ok _, .error _ => isFalse (by simp)
  | .error _, .ok _ => isFalse (by simp)

/-! ## env.unquote, env.Getvar, env.Unquote (env.go lines 44-69, 250-276) -/

/-- env.go `unquote(s, c)`: strips a leading and trailing quote character,
failing with the unterminated-string error when the token is shorter than
two characters or its last character differs from `c`. -/
def unquote : String → Char → Except UErr String
  | ⟨l⟩, c =>
    if l.length < 2 ∨ l.getLast? ≠ some c then
      .error .unterminatedString
    else
      .ok ⟨(l.drop 1).dropLast⟩

/-- The lookup `vars[n]` on the package-level variable map, modelled as an
association list with unique keys. -/
def lookupVar : List (String × String) → String → Option String
  | [], _ => none
  | (k, v) :: rest, n => if k = n then some v else lookupVar rest n

/-- env.go `Getvar(s)`: reads `s[0]` unconditionally (a crash on the empty
string); when the first character is a quote the remainder of the token is
unquoted to obtain the lookup name and the quote is re-applied around the
substituted value; an unknown name returns `(false, s)` with no error. -/
def Getvar (vars : List (String × String)) : String → GoRes UErr (Bool × String)
  | ⟨[]⟩ => .crash
  | ⟨c :: rest⟩ =>
    if c = '\'' ∨ c = '"' then
      match unquote ⟨c :: rest⟩ c with
      | .error e => .err e
      | .ok n =>
        match lookupVar vars n with
        | some v => .ok (true, String.singleton c ++ v ++ String.singleton c)
        | none => .ok (false, ⟨c :: rest⟩)
    else
      match lookupVar vars ⟨c :: rest⟩ with
      | some v => .ok (true, v)
      | none => .ok (false, ⟨c :: rest⟩)

/-- env.go `Unquote(u, s)`: empty input gives empty output; a single
character is returned unchanged; a longer token starting with `:` is
resolved through `Getvar` on the remainder, one starting with a quote is
unquoted, and anything else is returned unchanged. -/
def Unquote (vars : List (String × String)) : String → GoRes UErr String
  | ⟨[]⟩ => .ok ""
  | ⟨[c]⟩ => .ok ⟨[c]⟩
  | ⟨c :: c2 :: rest⟩ =>
    if c = ':' then
      match Getvar vars ⟨c2 :: rest⟩ with
      | .crash => .crash
      | .err e => .err e
      | .ok (true, v) => .ok v
      | .ok (false, _) => .ok ⟨c :: c2 :: rest⟩
    else if c = '\'' ∨ c = '"' then
      match unquote ⟨c :: c2 :: rest⟩ c with
      | .error e => .err e
      | .ok r => .ok r
    else
      .ok ⟨c :: c2 :: rest⟩

/-! ## env.readPassEntries (env.go lines 199-235) -/

/-- The pass-file parse errors: `text.BadPassFileLine` carries the 1-based
line number, `text.BadPassFileFieldEmpty` the line number and field index. -/
inductive PassParseErr where
  | badLine (i : Nat)
  | badFieldEmpty (i j : Nat)
  deriving DecidableEq, Repr

/-- One scanner line after comment stripping and whitespace trimming. -/
def cleanLine (l : String) : String :=
  trimSpace (stripComment l)

/-- The loop body of `readPassEntries`, with `i` the 1-based number of the
current line.  Blank (post-clean) lines are skipped; a field count other
than 6 or an empty field aborts the whole read with the corresponding
error. -/
def readPassGo : List String → Nat → Except PassParseErr (List (List String))
  | [], _ => .ok []
  | l :: ls, i =>
    let line := cleanLine l
    if line = "" then
      readPassGo ls (i + 1)
    else
      let v := goSplit line ':'
      if v.length ≠ 6 then
        .error (.badLine i)
      else
        match v.findIdx? (fun f => f = "") with
        | some j => .error (.badFieldEmpty i j)
        | none =>
          match readPassGo ls (i + 1) with
          | .error e => .error e
          | .ok rest => .ok (v :: rest)

/-- env.go `readPassEntries(path)`, over the list of scanner lines of the
file: line numbering starts at 1. -/
def readPassEntries (lines : List String) : Except PassParseErr (List (List String)) :=
  readPassGo lines 1

/-! ## env.matchPassEntry (env.go lines 239-247) -/

/-- The result of `matchPassEntry`: Go returns `("", "", false)` on a
mismatch and `(entry[4], entry[5], true)` on a match; `crash` models the
runtime abort when an index is out of range. -/
inductive MatchRes where
  | crash
  | noMatch
  | found (u p : String)
  deriving DecidableEq, Repr

/-- The loop of `matchPassEntry`: `ns` and `es` are the suffixes of the
identity `n` and of `entry` from the current index on; reading `entry[i]`
past the end of `entry` is a crash, as is reading `entry[4]`/`entry[5]`
after the loop when `entry` is shorter than 6 fields. -/
def matchWalk (entry : List String) : List String → List String → MatchRes
  | [], _ =>
    match entry[4]?, entry[5]? with
    | some u, some p => .found u p
    | _, _ => .crash
  | _ :: _, [] => .crash
  | x :: xs, e :: es =>
    if e ≠ "*" ∧ e ≠ x then .noMatch else matchWalk entry xs es

/-- env.go `matchPassEntry(n, entry)`: for every index `i` below `len n`,
`entry[i]` must be the wildcard or equal to `n[i]`; on success the entry's
username and password fields (`entry[4]`, `entry[5]`) are returned. -/
def matchPassEntry (n entry : List String) : MatchRes :=
  matchWalk entry n entry

/-- The matching condition as the spec states it: at every identity
component index the entry's field is the literal wildcard or exactly the
identity component. -/
def entryMatches (n entry : List String) : Prop :=
  ∀ i, i < n.length → (entry[i]? = some "*" ∨ entry[i]? = n[i]?)

instance decEntryMatches (n entry : List String) : Decidable (entryMatches n entry) := by
  unfold entryMatches; infer_instance

/-- Field-by-field Boolean form of the match loop's condition, used to
characterise `matchWalk`. -/
def fieldsMatch : List String → List String → Bool
  | [], _ => true
  | _ :: _, [] => false
  | x :: xs, e :: es => if e = "*" ∨ e = x then fieldsMatch xs es else false

/-! ## env.PassFileEntry (env.go lines 146-194) -/

/-- The errors surfaced by `PassFileEntry`. -/
inductive PassErr where
  | badPassFile
  | badPassFileMode
  | unknownNormalize
  | parse (e : PassParseErr)
  deriving DecidableEq, Repr

/-- The effectful context of one `PassFileEntry` call: the user info of
the connection URL (username together with an optional explicit password),
the stat results for the pass-file path, `runtime.GOOS`, the permission
bits of the file mode, the scanner lines of the file, and the string
produced by `v.Normalize (":", "", 3)`. -/
structure PassEnv where
  urlUser : Option (String × Option String)
  fileExists : Bool
  fileIsDir : Bool
  goos : String
  fileMode : Nat
  fileLines : List String
  normalizeOut : String
  deriving DecidableEq, Repr

/-- Whether the connection URL already carries an explicit password
(`v.User.Password()` reports `ok`). -/
def hasExplicitPassword (e : PassEnv) : Bool :=
  match e.urlUser with
  | some (_, some _) => true
  | _ => false

/-- The `username` local of `PassFileEntry`: empty when `v.User` is nil. -/
def usernameOf (e : PassEnv) : String :=
  match e.urlUser with
  | some (u, _) => u
  | none => ""

/-- The entry scan of `PassFileEntry`: first match wins; a matched
username field that is literally `*` is replaced by the connection's
username; an exhausted list returns nil with no error. -/
def findEntry (n : List String) (username : String) :
    List (List String) → GoRes PassErr (Option (String × String))
  | [] => .ok none
  | e :: es =>
    match matchPassEntry n e with
    | .crash => .crash
    | .noMatch => findEntry n username es
    | .found u p => .ok (some (if u = "*" then username else u, p))

/-- env.go `PassFileEntry(u, v)`: an explicit password in the URL returns
nil immediately; a missing file returns nil; a directory fails with
`text.BadPassFile`; on a non-Windows system a mode with any group/other
bit set (`fi.Mode() AND 0x3f`) fails with `text.BadPassFileMode`; then the
file is parsed, the normalized identity is split on `:` and must have at
least 3 components, and the entries are scanned in file order. -/
def PassFileEntry (e : PassEnv) : GoRes PassErr (Option (String × String)) :=
  if hasExplicitPassword e then .ok none
  else if e.fileExists = false then .ok none
  else if e.fileIsDir then .err .badPassFile
  else if e.goos ≠ "windows" ∧ e.fileMode &&& 0x3f ≠ 0 then .err .badPassFileMode
  else
    match readPassEntries e.fileLines with
    | .error pe => .err (.parse pe)
    | .ok entries =>
      let n := goSplit e.normalizeOut ':'
      if n.length < 3 then .err .unknownNormalize
      else findEntry n (usernameOf e) entries

end env

namespace metacmd

/-! ## The command registry (metacmd, init at part_001 lines 33-366) -/

/-- The identity of one registered command: its canonical name and the
keys of its alias map (the alias help strings play no role in the index). -/
structure Command where
  name : String
  aliases : List String
  deriving DecidableEq, Repr

/-- The commands declared in `init`, in declaration order, skipping the
`None` slot (which the registration loop skips): Question, Quit,
Copyright, ConnectionInfo, Password, Print, Reset, Transact, Prompt,
SetVar, Unset, SetFormatVar. -/
def cmds : List Command :=
  [⟨"?", ["?", "? "]⟩,
   ⟨"q", ["quit"]⟩,
   ⟨"copyright", []⟩,
   ⟨"conninfo", []⟩,
   ⟨"password", ["passwd"]⟩,
   ⟨"p", ["print", "raw"]⟩,
   ⟨"r", ["reset"]⟩,
   ⟨"begin", ["commit", "rollback"]⟩,
   ⟨"prompt", []⟩,
   ⟨"set", []⟩,
   ⟨"unset", []⟩,
   ⟨"pset", ["a", "C", "f", "H", "T", "t", "x"]⟩]

/-- The multiset of keys the registration loop assigns into `cmdMap`: for
every command its canonical name and then each alias. -/
def insertedKeys : List String :=
  cmds.flatMap (fun c => c.name :: c.aliases)

/-- The flat name-to-command index: each key paired with the position of
its command in `cmds`. -/
def cmdEntries : List (String × Nat) :=
  cmds.enum.flatMap (fun p => (p.2.name :: p.2.aliases).map (fun k => (k, p.1)))

/-- Lookup in the flat index. -/
def lookupCmd (k : String) : Option Nat :=
  (cmdEntries.find? (fun e => e.1 == k)).map (fun e => e.2)

/-! ## SetFormatVar rendering (part_001 lines 257-346) -/

/-- The `p.Name` switch of the SetFormatVar handler: which logical field a
given invoked name targets, together with the `extra` discriminator. -/
def resolveField (pname arg : String) : String × String :=
  if pname = "pset" then (arg, "")
  else if pname = "a" then ("format", "")
  else if pname = "C" then ("title", "")
  else if pname = "f" then ("fieldsep", "")
  else if pname = "H" then ("format", "html")
  else if pname = "T" then ("tableattr", "")
  else if pname = "t" then ("tuples_only", "")
  else if pname = "x" then ("expanded", "")
  else ("", "")

/-- The template key used to render the status line: part_001 lines
325-328 replace the key by `expanded_auto` exactly when the field is
`expanded` and the resulting value is `auto`. -/
def displayKey (field v : String) : String :=
  if field = "expanded" ∧ v = "auto" then "expanded_auto" else field

/-- Modelled from the spec: the value validation of `env.Pset` and
`env.Ptoggle` (env package, not part of the sources here) decides which
format fields may hold the sentinel value `auto`; per the spec's tri-state
description and the alias help text of `x` ("toggle expanded output,
[on|off|auto]"), the only such field is `expanded`. -/
def fieldAdmitsAuto (field : String) : Bool :=
  field = "expanded"

end metacmd

/-! ## Lemmas about the quoting and variable resolver -/

namespace env

theorem unquote_eq (l : List Char) (c : Char) (h2 : ¬ l.length < 2) :
    unquote ⟨l⟩ c =
      if l.getLast? = some c then Except.ok ⟨(l.drop 1).dropLast⟩
      else Except.error .unterminatedString := by
  by_cases h : l.getLast? = some c <;> simp [unquote, h, h2]

theorem Getvar_quoted (vars : List (String × String)) (q : Char) (name : String)
    (hq : q = '\'' ∨ q = '"') :
    Getvar vars (String.singleton q ++ name ++ String.singleton q) =
      match lookupVar vars name with
      | some v => .ok (true, String.singleton q ++ v ++ String.singleton q)
      | none => .ok (false, String.singleton q ++ name ++ String.singleton q) := by
  have hdata : (String.singleton q ++ name ++ String.singleton q).data
      = q :: (name.data ++ [q]) := rfl
  show Getvar vars ⟨q :: (name.data ++ [q])⟩ = _
  rw [Getvar, if_pos hq]
  have h2 : ¬ (q :: (name.data ++ [q])).length < 2 := by
    simp [List.length_append]
  rw [unquote_eq _ _ h2]
  have hlast : (q :: (name.data ++ [q])).getLast? = some q := by
    have : q :: (name.data ++ [q]) = (q :: name.data) ++ [q] := rfl
    rw [this, List.getLast?_concat]
  rw [if_pos hlast]
  have hint : (((q :: (name.data ++ [q])).drop 1).dropLast : List Char) = name.data := by
    simp
  rw [hint]
  rfl

theorem Getvar_quoted_unterminated (vars : List (String × String)) (t : String) (q : Char)
    (hhead : t.data.head? = some q) (hq : q = '\'' ∨ q = '"')
    (hlast : t.data.getLast? ≠ some q) :
    Getvar vars t = .err .unterminatedString := by
  rcases hd : t.data with _ | ⟨c, rest⟩
  · rw [hd] at hhead; simp at hhead
  · have hc : c = q := by rw [hd] at hhead; simpa using hhead
    subst hc
    have ht : t = ⟨c :: rest⟩ := by
      calc t = ⟨t.data⟩ := rfl
        _ = ⟨c :: rest⟩ := by rw [hd]
    rw [ht]
    rw [Getvar, if_pos hq]
    have : (c :: rest).getLast? ≠ some c := by rw [← hd]; exact hlast
    simp [unquote, this]

theorem Getvar_plain (vars : List (String × String)) (t : String) (c : Char)
    (hhead : t.data.head? = some c) (hnq : ¬ (c = '\'' ∨ c = '"')) :
    Getvar vars t =
      match lookupVar vars t with
      | some v => .ok (true, v)
      | none => .ok (false, t) := by
  rcases hd : t.data with _ | ⟨c0, rest⟩
  · rw [hd] at hhead; simp at hhead
  · have hc : c0 = c := by rw [hd] at hhead; simpa using hhead
    subst hc
    have ht : t = ⟨c0 :: rest⟩ := by
      calc t = ⟨t.data⟩ := rfl
        _ = ⟨c0 :: rest⟩ := by rw [hd]
    rw [ht]
    rw [Getvar, if_neg hnq]

theorem Unquote_colon (vars : List (String × String)) (t : String) (hne : t.data ≠ []) :
    Unquote vars (":" ++ t) =
      match Getvar vars t with
      | .crash => .crash
      | .err e => .err e
      | .ok (true, v) => .ok v
      | .ok (false, _) => .ok (":" ++ t) := by
  rcases hd : t.data with _ | ⟨c2, rest⟩
  · exact absurd hd hne
  · have ht : t = ⟨c2 :: rest⟩ := by
      calc t = ⟨t.data⟩ := rfl
        _ = ⟨c2 :: rest⟩ := by rw [hd]
    have hcat : (":" ++ t) = ⟨':' :: c2 :: rest⟩ := by
      calc (":" ++ t) = ⟨(":" ++ t).data⟩ := rfl
        _ = ⟨':' :: c2 :: rest⟩ := by rw [show (":" ++ t).data = ':' :: t.data from rfl, hd]
    rw [hcat, Unquote, if_pos rfl, ← ht]

theorem Getvar_ne_crash (vars : List (String × String)) (t : String) (hne : t.data ≠ []) :
    Getvar vars t ≠ .crash := by
  rcases hd : t.data with _ | ⟨c, rest⟩
  · exact absurd hd hne
  · have ht : t = ⟨c :: rest⟩ := by
      calc t = ⟨t.data⟩ := rfl
        _ = ⟨c :: rest⟩ := by rw [hd]
    rw [ht, Getvar]
    split
    · rcases hu : unquote ⟨c :: rest⟩ c with n | e <;> simp [hu]
      split <;> simp
    · split <;> simp

/-! ## Claim theorems for the quoting and variable resolver -/

/-- Claim C5: for every token of length greater than 1 whose first
character is a single or double quote, `Unquote` returns the interior
substring with the leading and trailing quote characters stripped when the
token's last character equals its first, and fails with the
unterminated-string error otherwise; in particular `Unquote "'abc'"`
returns `abc` and `Unquote "'abc"` fails with unterminated-string. -/
theorem Unquote_quote_token_spec :
    (∀ (vars : List (String × String)) (s : String) (c : Char),
        1 < s.length → s.data.head? = some c → (c = '\'' ∨ c = '"') →
        Unquote vars s =
          if s.data.getLast? = some c then .ok ⟨(s.data.drop 1).dropLast⟩
          else .err .unterminatedString) ∧
    (∀ vars : List (String × String), Unquote vars "'abc'" = .ok "abc") ∧
    (∀ vars : List (String × String), Unquote vars "'abc" = .err .unterminatedString) := by
  refine ⟨?_, fun vars => rfl, fun vars => rfl⟩
  intro vars s c hlen hhead hq
  rcases hd : s.data with _ | ⟨c0, tail⟩
  · rw [hd] at hhead; simp at hhead
  rcases tail with _ | ⟨c2, rest⟩
  · exfalso
    have h1 : s.length = 1 := by
      rw [show s.length = s.data.length from rfl, hd]; rfl
    omega
  have hc : c0 = c := by rw [hd] at hhead; simpa using hhead
  subst hc
  have hs : s = ⟨c0 :: c2 :: rest⟩ := by
    calc s = ⟨s.data⟩ := rfl
      _ = ⟨c0 :: c2 :: rest⟩ := by rw [hd]
  have hne : c0 ≠ ':' := by rcases hq with rfl | rfl <;> decide
  rw [hs, Unquote, if_neg hne, if_pos hq, unquote_eq _ _ (by simp)]
  by_cases hl : (c2 :: rest).getLast? = some c0 <;>
    simp [hl]

/-- Claim C6: for every token of length greater than 1 beginning with
`:`, `Unquote` resolves the remainder as a variable via `Getvar`: a
quoted remainder is unquoted to obtain the lookup name and the quote is
re-applied around the substituted value on success, and an unknown name
returns the original token unchanged with no error. -/
theorem Unquote_colon_variable_spec :
    (∀ (vars : List (String × String)) (q : Char) (name v : String),
        (q = '\'' ∨ q = '"') → lookupVar vars name = some v →
        Unquote vars (":" ++ (String.singleton q ++ name ++ String.singleton q)) =
          .ok (String.singleton q ++ v ++ String.singleton q)) ∧
    (∀ (vars : List (String × String)) (q : Char) (name : String),
        (q = '\'' ∨ q = '"') → lookupVar vars name = none →
        Unquote vars (":" ++ (String.singleton q ++ name ++ String.singleton q)) =
          .ok (":" ++ (String.singleton q ++ name ++ String.singleton q))) ∧
    (∀ (vars : List (String × String)) (t : String) (c : Char) (v : String),
        t.data.head? = some c → ¬ (c = '\'' ∨ c = '"') → lookupVar vars t = some v →
        Unquote vars (":" ++ t) = .ok v) ∧
    (∀ (vars : List (String × String)) (t : String) (c : Char),
        t.data.head? = some c → ¬ (c = '\'' ∨ c = '"') → lookupVar vars t = none →
        Unquote vars (":" ++ t) = .ok (":" ++ t)) := by
  refine ⟨?_, ?_, ?_, ?_⟩
  · intro vars q name v hq hlook
    rw [Unquote_colon _ _ (by show q :: _ ≠ []; simp), Getvar_quoted _ _ _ hq, hlook]
  · intro vars q name hq hlook
    rw [Unquote_colon _ _ (by show q :: _ ≠ []; simp), Getvar_quoted _ _ _ hq, hlook]
  · intro vars t c v hhead hnq hlook
    have hne : t.data ≠ [] := by
      intro h; rw [h] at hhead; simp at hhead
    rw [Unquote_colon _ _ hne, Getvar_plain _ _ _ hhead hnq, hlook]
  · intro vars t c hhead hnq hlook
    have hne : t.data ≠ [] := by
      intro h; rw [h] at hhead; simp at hhead
    rw [Unquote_colon _ _ hne, Getvar_plain _ _ _ hhead hnq, hlook]

/-- Claim C9: a token beginning with `:` whose remainder begins with a
quote character that the remainder does not end with makes `Unquote` fail
with the unterminated-string error rather than returning the token
unchanged. -/
theorem Unquote_colon_unterminated_spec
    (vars : List (String × String)) (t : String) (q : Char)
    (hhead : t.data.head? = some q) (hq : q = '\'' ∨ q = '"')
    (hlast : t.data.getLast? ≠ some q) :
    Unquote vars (":" ++ t) = .err .unterminatedString := by
  have hne : t.data ≠ [] := by
    intro h; rw [h] at hhead; simp at hhead
  rw [Unquote_colon _ _ hne, Getvar_quoted_unterminated _ _ _ hhead hq hlast]

/-- Claim C10: `Getvar` reads the first character of its argument
unconditionally, so the empty string crashes it; `Unquote` always calls it
on a nonempty string, so `Unquote` never crashes. -/
theorem Getvar_empty_crash_Unquote_safe :
    (∀ vars : List (String × String), Getvar vars "" = .crash) ∧
    (∀ (vars : List (String × String)) (s : String), Unquote vars s ≠ .crash) := by
  refine ⟨fun vars => rfl, ?_⟩
  intro vars s
  rcases hd : s.data with _ | ⟨c, tail⟩
  · have hs : s = ⟨[]⟩ := by
      calc s = ⟨s.data⟩ := rfl
        _ = ⟨[]⟩ := by rw [hd]
    rw [hs, Unquote]; simp
  rcases tail with _ | ⟨c2, rest⟩
  · have hs : s = ⟨[c]⟩ := by
      calc s = ⟨s.data⟩ := rfl
        _ = ⟨[c]⟩ := by rw [hd]
    rw [hs, Unquote]; simp
  have hs : s = ⟨c :: c2 :: rest⟩ := by
    calc s = ⟨s.data⟩ := rfl
      _ = ⟨c :: c2 :: rest⟩ := by rw [hd]
  rw [hs, Unquote]
  split
  · have h := Getvar_ne_crash vars ⟨c2 :: rest⟩ (by simp)
    rcases hg : Getvar vars ⟨c2 :: rest⟩ with ⟨b, v⟩ | e | _
    · rcases b <;> simp [hg]
    · simp [hg]
    · exact absurd hg h
  · split
    · rcases hu : unquote ⟨c :: c2 :: rest⟩ c with r | e <;> simp [hu]
    · simp

/-- Witness for C5. -/
theorem Unquote_quote_token_spec_witness :
    Unquote [] "'xy'" = .ok "xy" :=
  (Unquote_quote_token_spec.1 [] "'xy'" '\'' (by decide) (by decide) (by decide)).trans
    (by decide)

/-- Witness for C6. -/
theorem Unquote_colon_variable_spec_witness :
    Unquote [("name", "val")]
        (":" ++ (String.singleton '\'' ++ "name" ++ String.singleton '\'')) =
      .ok (String.singleton '\'' ++ "val" ++ String.singleton '\'') :=
  Unquote_colon_variable_spec.1 [("name", "val")] '\'' "name" "val" (by decide) (by decide)

/-- Witness for C9. -/
theorem Unquote_colon_unterminated_spec_witness :
    Unquote [] (":" ++ "'ab") = .err .unterminatedString :=
  Unquote_colon_unterminated_spec [] "'ab" '\'' (by decide) (by decide) (by decide)

/-! ## Lemmas about the pass-file entry matching -/

theorem matchWalk_eq_fieldsMatch (entry : List String) (u p : String)
    (h4 : entry[4]? = some u) (h5 : entry[5]? = some p) :
    ∀ (ns es : List String), ns.length ≤ es.length →
      matchWalk entry ns es = if fieldsMatch ns es then .found u p else .noMatch := by
  intro ns
  induction ns with
  | nil =>
    intro es h
    simp [matchWalk, fieldsMatch, h4, h5]
  | cons x xs ih =>
    intro es h
    rcases es with _ | ⟨e, es'⟩
    · simp at h
    · have h' : xs.length ≤ es'.length := by simpa using h
      by_cases hc : e = "*" ∨ e = x
      · have hnc : ¬ (e ≠ "*" ∧ e ≠ x) := by tauto
        simp [matchWalk, fieldsMatch, hnc, hc, ih es' h']
      · have hnc : e ≠ "*" ∧ e ≠ x := by tauto
        simp [matchWalk, fieldsMatch, hnc, hc]

theorem entryMatches_cons (x e : String) (xs es : List String) :
    entryMatches (x :: xs) (e :: es) ↔ (e = "*" ∨ e = x) ∧ entryMatches xs es := by
  unfold entryMatches
  constructor
  · intro h
    refine ⟨?_, ?_⟩
    · have h0 := h 0 (by simp)
      simpa using h0
    · intro i hi
      have hs := h (i + 1) (by simpa using Nat.succ_lt_succ hi)
      simpa using hs
  · rintro ⟨h0, h⟩ i hi
    cases i with
    | zero => simpa using h0
    | succ j =>
      have hj : j < xs.length := by simpa using hi
      simpa using h j hj

theorem fieldsMatch_iff (ns es : List String) (h : ns.length ≤ es.length) :
    fieldsMatch ns es = true ↔ entryMatches ns es := by
  induction ns generalizing es with
  | nil =>
    simp [fieldsMatch, entryMatches]
  | cons x xs ih =>
    rcases es with _ | ⟨e, es'⟩
    · simp at h
    · have h' : xs.length ≤ es'.length := by simpa using h
      rw [entryMatches_cons]
      by_cases hc : e = "*" ∨ e = x
      · simp [fieldsMatch, hc, ih es' h']
      · simp [fieldsMatch, hc]

theorem matchPassEntry_spec (n e : List String) (h6 : e.length = 6) (hn : n.length ≤ 6) :
    matchPassEntry n e =
      if entryMatches n e then .found (e[4]?.getD "") (e[5]?.getD "") else .noMatch := by
  have h4 : e[4]? = some (e[4]?.getD "") := by
    rw [List.getElem?_eq_getElem (show 4 < e.length by omega)]; rfl
  have h5 : e[5]? = some (e[5]?.getD "") := by
    rw [List.getElem?_eq_getElem (show 5 < e.length by omega)]; rfl
  rw [matchPassEntry, matchWalk_eq_fieldsMatch e _ _ h4 h5 n e (by omega)]
  by_cases hm : entryMatches n e
  · rw [if_pos ((fieldsMatch_iff n e (by omega)).mpr hm), if_pos hm]
  · rw [if_neg (by simpa [fieldsMatch_iff n e (by omega)] using hm), if_neg hm]

theorem findEntry_spec (n : List String) (uname : String) (entries : List (List String))
    (h6 : ∀ e ∈ entries, e.length = 6) (hn : n.length ≤ 6) :
    findEntry n uname entries =
      match entries.find? (fun e => decide (entryMatches n e)) with
      | none => .ok none
      | some e =>
          .ok (some (if e[4]?.getD "" = "*" then uname else e[4]?.getD "", e[5]?.getD "")) := by
  induction entries with
  | nil => simp [findEntry]
  | cons e es ih =>
    have he : e.length = 6 := h6 e (by simp)
    have hrest : ∀ x ∈ es, x.length = 6 := fun x hx => h6 x (by simp [hx])
    rw [findEntry, matchPassEntry_spec n e he hn]
    by_cases hm : entryMatches n e
    · rw [if_pos hm, List.find?_cons_of_pos _ (by simpa using hm)]
    · rw [if_neg hm, ih hrest, List.find?_cons_of_neg _ (by simpa using hm)]

/-! ## Lemmas about the pass-file reading loop -/

theorem findIdx?_none_of_forall {α : Type} (p : α → Bool) :
    ∀ (l : List α) (s : Nat), l.findIdx? p s = none → ∀ a ∈ l, p a = false := by
  intro l
  induction l with
  | nil => intro s _ a ha; simp at ha
  | cons x xs ih =>
    intro s h a ha
    rw [List.findIdx?_cons] at h
    by_cases hx : p x = true
    · rw [if_pos hx] at h; simp at h
    · rw [if_neg hx] at h
      rcases List.mem_cons.mp ha with rfl | ha
      · simpa using hx
      · exact ih (s + 1) h a ha

theorem readPassGo_ok_eq :
    ∀ (lines : List String) (i : Nat) (es : List (List String)),
      readPassGo lines i = .ok es →
      es = ((lines.map cleanLine).filter (fun l => decide (l ≠ ""))).map
        (fun l => goSplit l ':') := by
  intro lines
  induction lines with
  | nil =>
    intro i es h
    simp [readPassGo] at h
    simp [← h]
  | cons l ls ih =>
    intro i es h
    rw [readPassGo] at h
    by_cases hb : cleanLine l = ""
    · rw [if_pos hb] at h
      simpa [hb] using ih (i + 1) es h
    · rw [if_neg hb] at h
      by_cases hlen : (goSplit (cleanLine l) ':').length ≠ 6
      · rw [if_pos hlen] at h; cases h
      · rw [if_neg hlen] at h
        rcases hf : (goSplit (cleanLine l) ':').findIdx? (fun f => decide (f = "")) with _ | j
        · rw [hf] at h
          rcases hr : readPassGo ls (i + 1) with e | rest
          · rw [hr] at h; cases h
          · rw [hr] at h
            cases h
            simp [hb, ih (i + 1) rest hr]
        · rw [hf] at h; cases h

theorem readPassGo_ok_shape :
    ∀ (lines : List String) (i : Nat) (es : List (List String)),
      readPassGo lines i = .ok es →
      ∀ e ∈ es, e.length = 6 ∧ ∀ f ∈ e, f ≠ "" := by
  intro lines
  induction lines with
  | nil =>
    intro i es h e he
    simp [readPassGo] at h
    subst h
    simp at he
  | cons l ls ih =>
    intro i es h e he
    rw [readPassGo] at h
    by_cases hb : cleanLine l = ""
    · rw [if_pos hb] at h
      exact ih (i + 1) es h e he
    · rw [if_neg hb] at h
      by_cases hlen : (goSplit (cleanLine l) ':').length ≠ 6
      · rw [if_pos hlen] at h; cases h
      · rw [if_neg hlen] at h
        rcases hf : (goSplit (cleanLine l) ':').findIdx? (fun f => decide (f = "")) with _ | j
        · rw [hf] at h
          rcases hr : readPassGo ls (i + 1) with pe | rest
          · rw [hr] at h; cases h
          · rw [hr] at h
            cases h
            rcases List.mem_cons.mp he with rfl | he
            · refine ⟨by omega, ?_⟩
              intro f hf2
              have := findIdx?_none_of_forall _ _ _ hf f hf2
              simpa using this
            · exact ih (i + 1) rest hr e he
        · rw [hf] at h; cases h

theorem readPassGo_badLine :
    ∀ (lines : List String) (i k : Nat),
      readPassGo lines i = .error (.badLine k) →
      i ≤ k ∧ ∃ l, lines[k - i]? = some l ∧ cleanLine l ≠ "" ∧
        (goSplit (cleanLine l) ':').length ≠ 6 := by
  intro lines
  induction lines with
  | nil =>
    intro i k h
    simp [readPassGo] at h
  | cons l ls ih =>
    intro i k h
    rw [readPassGo] at h
    by_cases hb : cleanLine l = ""
    · rw [if_pos hb] at h
      obtain ⟨hik, l', hget, h1, h2⟩ := ih (i + 1) k h
      refine ⟨by omega, l', ?_, h1, h2⟩
      have : k - i = (k - (i + 1)) + 1 := by omega
      rw [this]
      simpa using hget
    · rw [if_neg hb] at h
      by_cases hlen : (goSplit (cleanLine l) ':').length ≠ 6
      · rw [if_pos hlen] at h
        cases h
        exact ⟨le_refl _, l, by simp, hb, hlen⟩
      · rw [if_neg hlen] at h
        rcases hf : (goSplit (cleanLine l) ':').findIdx? (fun f => decide (f = "")) with _ | j
        · rw [hf] at h
          rcases hr : readPassGo ls (i + 1) with pe | rest
          · rw [hr] at h
            cases h
            obtain ⟨hik, l', hget, h1, h2⟩ := ih (i + 1) k hr
            refine ⟨by omega, l', ?_, h1, h2⟩
            have : k - i = (k - (i + 1)) + 1 := by omega
            rw [this]
            simpa using hget
          · rw [hr] at h; cases h
        · rw [hf] at h; cases h

theorem readPassGo_badField :
    ∀ (lines : List String) (i k j : Nat),
      readPassGo lines i = .error (.badFieldEmpty k j) →
      i ≤ k ∧ ∃ l, lines[k - i]? = some l ∧ cleanLine l ≠ "" ∧
        (goSplit (cleanLine l) ':').length = 6 ∧
        (goSplit (cleanLine l) ':').findIdx? (fun f => decide (f = "")) = some j := by
  intro lines
  induction lines with
  | nil =>
    intro i k j h
    simp [readPassGo] at h
  | cons l ls ih =>
    intro i k j h
    rw [readPassGo] at h
    by_cases hb : cleanLine l = ""
    · rw [if_pos hb] at h
      obtain ⟨hik, l', hget, h1, h2⟩ := ih (i + 1) k j h
      refine ⟨by omega, l', ?_, h1, h2⟩
      have : k - i = (k - (i + 1)) + 1 := by omega
      rw [this]
      simpa using hget
    · rw [if_neg hb] at h
      by_cases hlen : (goSplit (cleanLine l) ':').length ≠ 6
      · rw [if_pos hlen] at h; cases h
      · rw [if_neg hlen] at h
        rcases hf : (goSplit (cleanLine l) ':').findIdx? (fun f => decide (f = "")) with _ | j'
        · rw [hf] at h
          rcases hr : readPassGo ls (i + 1) with pe | rest
          · rw [hr] at h
            cases h
            obtain ⟨hik, l', hget, h1, h2⟩ := ih (i + 1) k j hr
            refine ⟨by omega, l', ?_, h1, h2⟩
            have : k - i = (k - (i + 1)) + 1 := by omega
            rw [this]
            simpa using hget
          · rw [hr] at h; cases h
        · rw [hf] at h
          cases h
          exact ⟨le_refl _, l, by simp, hb, by omega, hf⟩

/-! ## Claim theorems for the credential resolver -/

/-- Claim C1: on a non-Windows platform, a pass file whose mode has any
group or other access bit set (mode AND 0o077 nonzero) makes
`PassFileEntry` fail with the bad-pass-file-mode error in every state that
reaches the file (no explicit password in the URL, file present, not a
directory), regardless of the file's contents — in particular even when an
entry would otherwise match the connection identity. -/
theorem PassFileEntry_mode_guard (e : PassEnv)
    (hx : hasExplicitPassword e = false)
    (hex : e.fileExists = true) (hdir : e.fileIsDir = false)
    (hos : e.goos ≠ "windows") (hm : e.fileMode &&& 0x3f ≠ 0) :
    PassFileEntry e = .err .badPassFileMode := by
  simp [PassFileEntry, hx, hex, hdir, hos, hm]

/-- Witness for C1: a matching entry is present, yet mode 0o640 fails. -/
theorem PassFileEntry_mode_guard_witness :
    PassFileEntry ⟨some ("bob", none), true, false, "linux", 0o640,
        ["*:*:*:*:alice:secret"], "pg:localhost:mydb"⟩ = .err .badPassFileMode :=
  PassFileEntry_mode_guard _ (by decide) (by decide) (by decide) (by decide) (by decide)

/-- Claim C2: in a state that reaches the entry scan, `PassFileEntry`
scans the parsed entries in file order; an entry matches iff at every
identity component index its field is the wildcard or equals the
component; the first match wins; a matched username field that is
literally `*` is replaced by the connection's username; and no match
yields nil with no error. -/
theorem PassFileEntry_match_spec (e : PassEnv) (entries : List (List String))
    (hx : hasExplicitPassword e = false)
    (hex : e.fileExists = true) (hdir : e.fileIsDir = false)
    (hperm : ¬ (e.goos ≠ "windows" ∧ e.fileMode &&& 0x3f ≠ 0))
    (hread : readPassEntries e.fileLines = .ok entries)
    (h3 : ¬ (goSplit e.normalizeOut ':').length < 3)
    (h6 : (goSplit e.normalizeOut ':').length ≤ 6) :
    PassFileEntry e =
      match entries.find?
          (fun en => decide (entryMatches (goSplit e.normalizeOut ':') en)) with
      | none => .ok none
      | some en =>
          .ok (some (if en[4]?.getD "" = "*" then usernameOf e else en[4]?.getD "",
            en[5]?.getD "")) := by
  have hshape : ∀ en ∈ entries, en.length = 6 := fun en hen =>
    (readPassGo_ok_shape e.fileLines 1 entries hread en hen).1
  have hfe := findEntry_spec (goSplit e.normalizeOut ':') (usernameOf e) entries hshape h6
  simp only [PassFileEntry, hx, hex, hdir, hread]
  rw [if_neg hperm, if_neg h3, hfe]
  simp

/-- Witness for C2: a wildcard entry matched by a 3-component identity. -/
theorem PassFileEntry_match_spec_witness :
    PassFileEntry ⟨some ("bob", none), true, false, "linux", 0o600,
        ["# credentials", "*:*:*:*:alice:secret"], "pg:localhost:mydb"⟩ =
      .ok (some ("alice", "secret")) :=
  (PassFileEntry_match_spec _ [["*", "*", "*", "*", "alice", "secret"]]
      (by decide) (by decide) (by decide) (by decide) (by decide) (by decide)
      (by decide)).trans (by decide)

/-- Claim C3: reading the pass file strips comments and whitespace from
every line, skips blank results, splits the rest on `:`, fails with a
line-numbered error on a field count other than 6, fails with a
line-and-field-numbered error on an empty field, and any such error aborts
the whole read, so no partial entry list is produced or used for
matching. -/
theorem readPassEntries_parse_contract (lines : List String) :
    (∀ es, readPassEntries lines = .ok es →
        es = ((lines.map cleanLine).filter (fun l => decide (l ≠ ""))).map
            (fun l => goSplit l ':') ∧
        ∀ en ∈ es, en.length = 6 ∧ ∀ f ∈ en, f ≠ "") ∧
    (∀ i, readPassEntries lines = .error (.badLine i) →
        1 ≤ i ∧ ∃ l, lines[i - 1]? = some l ∧ cleanLine l ≠ "" ∧
          (goSplit (cleanLine l) ':').length ≠ 6) ∧
    (∀ i j, readPassEntries lines = .error (.badFieldEmpty i j) →
        1 ≤ i ∧ ∃ l, lines[i - 1]? = some l ∧ cleanLine l ≠ "" ∧
          (goSplit (cleanLine l) ':').length = 6 ∧
          (goSplit (cleanLine l) ':').findIdx? (fun f => decide (f = "")) = some j) ∧
    (∀ (e : PassEnv) (pe : PassParseErr),
        hasExplicitPassword e = false → e.fileExists = true → e.fileIsDir = false →
        ¬ (e.goos ≠ "windows" ∧ e.fileMode &&& 0x3f ≠ 0) →
        readPassEntries e.fileLines = .error pe →
        PassFileEntry e = .err (.parse pe)) := by
  refine ⟨?_, ?_, ?_, ?_⟩
  · intro es h
    exact ⟨readPassGo_ok_eq lines 1 es h, readPassGo_ok_shape lines 1 es h⟩
  · intro i h
    exact readPassGo_badLine lines 1 i h
  · intro i j h
    exact readPassGo_badField lines 1 i j h
  · intro e pe hx hex hdir hperm hread
    simp [PassFileEntry, hx, hex, hdir, hperm, hread]

/-- Witness for C3: a 3-field line is rejected with its line number. -/
theorem readPassEntries_parse_contract_witness :
    1 ≤ 1 ∧ ∃ l, (["a:b:c"] : List String)[1 - 1]? = some l ∧ cleanLine l ≠ "" ∧
      (goSplit (cleanLine l) ':').length ≠ 6 :=
  (readPassEntries_parse_contract ["a:b:c"]).2.1 1 (by decide)

/-- Claim C8: matching a 6-field entry is crash free exactly under the
precondition that the identity has at most 6 components; with 7 components
the unchecked indexing of `matchPassEntry` crashes, and `PassFileEntry`
guards only the lower bound of 3 identity components, not an upper
bound. -/
theorem matchPassEntry_bounds_spec :
    (∀ (n entry : List String), entry.length = 6 → n.length ≤ 6 →
        matchPassEntry n entry ≠ .crash) ∧
    matchPassEntry ["a", "b", "c", "d", "e", "f", "g"]
        ["*", "*", "*", "*", "*", "*"] = .crash ∧
    PassFileEntry ⟨some ("bob", none), true, false, "linux", 0o600,
        ["*:*:*:*:*:*"], "a:b:c:d:e:f:g"⟩ = .crash ∧
    PassFileEntry ⟨some ("bob", none), true, false, "linux", 0o600,
        ["*:*:*:*:alice:secret"], "a:b"⟩ = .err .unknownNormalize := by
  refine ⟨?_, by decide, by decide, by decide⟩
  intro n entry h6 hn
  rw [matchPassEntry_spec n entry h6 hn]
  split <;> simp

/-- Witness for C8. -/
theorem matchPassEntry_bounds_spec_witness :
    matchPassEntry ["x", "y", "z"] ["*", "*", "*", "*", "u", "p"] ≠ .crash :=
  matchPassEntry_bounds_spec.1 _ _ (by decide) (by decide)

end env

/-! ## Claim theorems for the command registry and format rendering -/

namespace metacmd

/-- Claim C4 counterexample: the multiset of keys inserted into the flat
index is not duplicate free — the key `?` is inserted twice (it is both
the canonical name of the Question command and one of its own aliases), so
global uniqueness of canonical names and aliases fails as stated. -/
theorem insertedKeys_duplicate : ¬ insertedKeys.Nodup := by decide

/-- Claim C4 (amended): every canonical name and every alias is inserted
into the single flat index and resolves to its own command; keys of
distinct commands never collide; the sole duplicate insertion is the key
`?`, which is both the canonical name and an alias of the same Question
command, so the index is still well defined. -/
theorem registry_keys_amended :
    (∀ p ∈ cmds.enum, ∀ k ∈ p.2.name :: p.2.aliases, lookupCmd k = some p.1) ∧
    insertedKeys.count "?" = 2 ∧
    (∀ k ∈ insertedKeys, k = "?" ∨ insertedKeys.count k = 1) :=
  ⟨by decide, by decide, by decide⟩

/-- Witness for the amended C4. -/
theorem registry_keys_amended_witness :
    lookupCmd "x" = some 11 :=
  registry_keys_amended.1 (11, ⟨"pset", ["a", "C", "f", "H", "T", "t", "x"]⟩)
    (by decide) "x" (by decide)

/-- Claim C7: every format field that can hold the sentinel `auto` (per
the spec-modelled admission predicate, exactly the `expanded` field) is
rendered, when its value is `auto`, through the distinct template key
`<field>_auto` instead of its normal key. -/
theorem displayKey_auto_spec (field v : String)
    (hf : fieldAdmitsAuto field = true) (hv : v = "auto") :
    displayKey field v = field ++ "_auto" := by
  have hfield : field = "expanded" := by simpa [fieldAdmitsAuto] using hf
  subst hfield
  subst hv
  decide

/-- Witness for C7. -/
theorem displayKey_auto_spec_witness :
    displayKey "expanded" "auto" = "expanded" ++ "_auto" :=
  displayKey_auto_spec "expanded" "auto" (by decide) rfl

end metacmd

end Usql
